import Mathlib

/-!
Shallow embedding of the emigui layout/interaction core
(src/emigui/src/region.rs and src/emigui/src/types.rs).

Real-number coordinates (Rust f32) are embedded as exact rationals.
The paint-command store (a per-layer list of draw primitives) is a
side effect that never feeds back into layout state, so it is not
carried in the embedded Region; the debug-overlay painting in
reserve_space is likewise omitted.
-/

namespace Emigui

/-- Modelled from the spec: 2D vector from the missing math module
(componentwise arithmetic; used for sizes and offsets). -/
structure Vec2 where
  x : ℚ
  y : ℚ
deriving DecidableEq, Repr

/-- Modelled from the spec: 2D position from the missing math module. -/
structure Pos2 where
  x : ℚ
  y : ℚ
deriving DecidableEq, Repr

instance : Add Vec2 := ⟨fun a b => ⟨a.x + b.x, a.y + b.y⟩⟩

instance : HAdd Pos2 Vec2 Pos2 := ⟨fun p v => ⟨p.x + v.x, p.y + v.y⟩⟩

instance : HSub Pos2 Vec2 Pos2 := ⟨fun p v => ⟨p.x - v.x, p.y - v.y⟩⟩

instance : HSub Pos2 Pos2 Vec2 := ⟨fun p q => ⟨p.x - q.x, p.y - q.y⟩⟩

def Vec2.zero : Vec2 := ⟨0, 0⟩

/-- Modelled from the spec: componentwise minimum (f32 min on each axis). -/
def Vec2.min (a b : Vec2) : Vec2 := ⟨Min.min a.x b.x, Min.min a.y b.y⟩

/-- Modelled from the spec: componentwise minimum of positions. -/
def Pos2.min (a b : Pos2) : Pos2 := ⟨Min.min a.x b.x, Min.min a.y b.y⟩

/-- Modelled from the spec: componentwise maximum of positions. -/
def Pos2.max (a b : Pos2) : Pos2 := ⟨Max.max a.x b.x, Max.max a.y b.y⟩

/-- Modelled from the spec: axis-aligned rectangle from the missing math
module, stored as min/max corners. -/
structure Rect where
  min : Pos2
  max : Pos2
deriving DecidableEq, Repr

def Rect.from_min_size (min : Pos2) (size : Vec2) : Rect := ⟨min, min + size⟩

def Rect.from_min_max (min max : Pos2) : Rect := ⟨min, max⟩

/-- Modelled from the spec: grow the rectangle by the given amount on
every side. -/
def Rect.expand (r : Rect) (amnt : ℚ) : Rect :=
  ⟨r.min - (⟨amnt, amnt⟩ : Vec2), r.max + (⟨amnt, amnt⟩ : Vec2)⟩

/-- Modelled from the spec: intersection of two rectangles
(componentwise max of the min corners, min of the max corners). -/
def Rect.intersect (r other : Rect) : Rect :=
  ⟨r.min.max other.min, r.max.min other.max⟩

/-- Modelled from the spec: grow the rectangle minimally so that it
contains the given point. -/
def Rect.extend_with (r : Rect) (p : Pos2) : Rect :=
  ⟨r.min.min p, r.max.max p⟩

def Rect.width (r : Rect) : ℚ := r.max.x - r.min.x

def Rect.height (r : Rect) : ℚ := r.max.y - r.min.y

def Rect.size (r : Rect) : Vec2 := r.max - r.min

/-- Modelled from the spec: point membership test of a rectangle. -/
def Rect.contains (r : Rect) (p : Pos2) : Bool :=
  decide (r.min.x ≤ p.x) && decide (p.x ≤ r.max.x) &&
  decide (r.min.y ≤ p.y) && decide (p.y ≤ r.max.y)

/-- One axis-aligned rectangle contains another when it contains both of
its corners (for min/max-ordered rectangles this is set containment). -/
def Rect.contains_rect (r inner : Rect) : Bool :=
  r.contains inner.min && r.contains inner.max

/-- Modelled from the spec: Context::round_to_pixel (context module not
under src/) snaps a coordinate to the output pixel grid determined by
pixels_per_point. -/
def round_to_pixel (pixels_per_point : ℚ) (point : ℚ) : ℚ :=
  ((round (point * pixels_per_point) : ℤ) : ℚ) / pixels_per_point

/-- Modelled from the spec: Context::round_vec_to_pixels. -/
def round_vec_to_pixels (pixels_per_point : ℚ) (v : Vec2) : Vec2 :=
  ⟨round_to_pixel pixels_per_point v.x, round_to_pixel pixels_per_point v.y⟩

/-- Modelled from the spec: Context::round_pos_to_pixels. -/
def round_pos_to_pixels (pixels_per_point : ℚ) (p : Pos2) : Pos2 :=
  ⟨round_to_pixel pixels_per_point p.x, round_to_pixel pixels_per_point p.y⟩

/-- A coordinate lies on the pixel grid when scaling it by
pixels_per_point yields an integer. -/
def on_grid (pixels_per_point q : ℚ) : Prop := (q * pixels_per_point).den = 1

instance (ppp q : ℚ) : Decidable (on_grid ppp q) := by
  unfold on_grid; infer_instance

inductive Direction where
  | Horizontal
  | Vertical
deriving DecidableEq, Repr

inductive Align where
  | Min
  | Center
  | Max
deriving DecidableEq, Repr

/-- The slice of Style that the layout engine reads. -/
structure Style where
  item_spacing : Vec2
deriving DecidableEq, Repr

/-- Region from src/emigui/src/region.rs. The ctx handle is replaced by
the one field the layout code reads through it (pixels_per_point); the
layer and the paint store are write-only side channels and are omitted. -/
structure Region where
  id : Nat
  clip_rect : Rect
  desired_rect : Rect
  child_bounds : Rect
  style : Style
  dir : Direction
  align : Align
  cursor : Pos2
  pixels_per_point : ℚ
deriving DecidableEq, Repr

def CLIP_RECT_MARGIN : ℚ := 3

def Region.child_region (r : Region) (child_rect : Rect) : Region :=
  { r with
    clip_rect := r.clip_rect.intersect (child_rect.expand CLIP_RECT_MARGIN)
    desired_rect := child_rect
    cursor := child_rect.min
    child_bounds := Rect.from_min_size child_rect.min Vec2.zero }

def Region.bottom_right (r : Region) : Pos2 :=
  r.desired_rect.max.max r.child_bounds.max

def Region.available_space (r : Region) : Vec2 :=
  r.bottom_right - r.cursor

def Region.available_width (r : Region) : ℚ := r.available_space.x

def Region.available_height (r : Region) : ℚ := r.available_space.y

def Region.bounding_size (r : Region) : Vec2 :=
  r.child_bounds.max - r.desired_rect.min

/-- The perpendicular offset that Region::reserve_space_impl adds to the
cursor, read off the two match expressions in its body. -/
def Region.align_offset (r : Region) (child_size : Vec2) : Vec2 :=
  match r.dir with
  | Direction.Horizontal =>
    ⟨0, match r.align with
        | Align.Min => 0
        | Align.Center => (1 / 2 : ℚ) * (r.available_height - child_size.y)
        | Align.Max => r.available_height - child_size.y⟩
  | Direction.Vertical =>
    ⟨match r.align with
     | Align.Min => 0
     | Align.Center => (1 / 2 : ℚ) * (r.available_width - child_size.x)
     | Align.Max => r.available_width - child_size.x, 0⟩

def Region.reserve_space_impl (r : Region) (child_size : Vec2) : Pos2 × Region :=
  let child_pos := r.cursor + r.align_offset child_size
  match r.dir with
  | Direction.Horizontal =>
    (child_pos,
     { r with
       child_bounds := r.child_bounds.extend_with (r.cursor + child_size)
       cursor := ⟨r.cursor.x + child_size.x + r.style.item_spacing.x, r.cursor.y⟩ })
  | Direction.Vertical =>
    (child_pos,
     { r with
       child_bounds := r.child_bounds.extend_with (r.cursor + child_size)
       cursor := ⟨r.cursor.x, r.cursor.y + child_size.y + r.style.item_spacing.y⟩ })

/-- Region::reserve_space. The debug-overlay painting (marker rectangle
and red overflow ticks) goes to the paint store and does not change
layout state; the hit test performed on the resulting rectangle is the
interact function below, which returns the rectangle unchanged. -/
def Region.reserve_space (r : Region) (child_size : Vec2) : Rect × Region :=
  let child_size := round_vec_to_pixels r.pixels_per_point child_size
  let r := { r with cursor := round_pos_to_pixels r.pixels_per_point r.cursor }
  let pr := r.reserve_space_impl child_size
  (Rect.from_min_size pr.1 child_size, pr.2)

/-- Reserve a whole sequence of sizes in order. -/
def Region.reserve_seq (r : Region) (sizes : List Vec2) : Region :=
  sizes.foldl (fun r s => (r.reserve_space s).2) r

/-- The column Regions built at the top of Region::columns, before the
caller's closure runs. Each gets an equal slice of the available width
after subtracting the inter-column spacing gaps, and a fresh vertical
layout. The Id override (make_child_id of the column index) only feeds
the hashing scheme and is kept as the parent id here. -/
def Region.mk_columns (r : Region) (num_columns : ℕ) : List Region :=
  let spacing := r.style.item_spacing.x
  let total_spacing := spacing * ((num_columns : ℚ) - 1)
  let column_width := (r.available_width - total_spacing) / (num_columns : ℚ)
  (List.range num_columns).map fun (col_idx : ℕ) =>
    let pos := r.cursor + (⟨(col_idx : ℚ) * (column_width + spacing), 0⟩ : Vec2)
    let child_rect :=
      Rect.from_min_max pos ⟨pos.x + column_width, r.bottom_right.y⟩
    { r.child_region child_rect with dir := Direction.Vertical }

/-- The sum_width accumulation loop of Region::columns: starts at the
total inter-column spacing and adds each column's child_bounds width. -/
def columns_sum_width (columns : List Region) (total_spacing : ℚ) : ℚ :=
  columns.foldl (fun acc column => acc + column.child_bounds.width) total_spacing

/-- The max_height accumulation loop of Region::columns: folds max of
each column's bounding_size height, starting from 0. -/
def columns_max_height (columns : List Region) : ℚ :=
  columns.foldl (fun acc region => Max.max region.bounding_size.y acc) 0

/-- Region::columns. The caller's closure, which mutates the column
Regions in place, is embedded as a function from the freshly built
columns to their final states. -/
def Region.columns (r : Region) (num_columns : ℕ)
    (add_contents : List Region → List Region) : Region :=
  let spacing := r.style.item_spacing.x
  let total_spacing := spacing * ((num_columns : ℚ) - 1)
  let columns := add_contents (r.mk_columns num_columns)
  let sum_width := columns_sum_width columns total_spacing
  let max_height := columns_max_height columns
  let size : Vec2 := ⟨Max.max r.available_width sum_width, max_height⟩
  (r.reserve_space size).2

/-- Region::add_custom_contents; the caller's closure is embedded as a
function from the fresh child Region to its final state. -/
def Region.add_custom_contents (r : Region) (size : Vec2)
    (add_contents : Region → Region) : Region :=
  let size := size.min r.available_space
  let child_rect := Rect.from_min_size r.cursor size
  let child_region := add_contents (r.child_region child_rect)
  (r.reserve_space child_region.bounding_size).2

inductive Key where
  | Alt
  | Backspace
  | Control
  | Delete
  | Down
  | End
  | Escape
  | Home
  | Insert
  | Left
  | Logo
  | PageDown
  | PageUp
  | Return
  | Right
  | Shift
  | Tab
  | Up
deriving DecidableEq, Repr

inductive Event where
  | Copy
  | Cut
  | Text (text : String)
  | Key (key : Key) (pressed : Bool)
deriving DecidableEq, Repr

/-- RawInput from src/emigui/src/types.rs (time kept exact, file paths
as strings). -/
structure RawInput where
  mouse_down : Bool
  mouse_pos : Option Pos2
  scroll_delta : Vec2
  screen_size : Vec2
  pixels_per_point : ℚ
  time : ℚ
  dropped_files : List String
  hovered_files : List String
  events : List Event
deriving DecidableEq, Repr

/-- GuiInput from src/emigui/src/types.rs. -/
structure GuiInput where
  mouse_down : Bool
  mouse_pressed : Bool
  mouse_released : Bool
  mouse_pos : Option Pos2
  mouse_move : Vec2
  scroll_delta : Vec2
  screen_size : Vec2
  pixels_per_point : ℚ
  time : ℚ
  dropped_files : List String
  hovered_files : List String
  events : List Event
deriving DecidableEq, Repr

def GuiInput.from_last_and_new (last new : RawInput) : GuiInput :=
  let mouse_move :=
    (new.mouse_pos.bind fun newp =>
      last.mouse_pos.map fun lastp => newp - lastp).getD Vec2.zero
  { mouse_down := new.mouse_down && new.mouse_pos.isSome
    mouse_pressed := !last.mouse_down && new.mouse_down
    mouse_released := last.mouse_down && !new.mouse_down
    mouse_pos := new.mouse_pos
    mouse_move := mouse_move
    scroll_delta := new.scroll_delta
    screen_size := new.screen_size
    pixels_per_point := new.pixels_per_point
    time := new.time
    dropped_files := new.dropped_files
    hovered_files := new.hovered_files
    events := new.events }

/-- InteractInfo from src/emigui/src/types.rs. -/
structure InteractInfo where
  hovered : Bool
  clicked : Bool
  active : Bool
  rect : Rect
deriving DecidableEq, Repr

/-- Modelled from the spec: the slice of the persistent Memory the
interaction engine consults — the single system-wide active id. -/
structure Memory where
  active_id : Option Nat
deriving DecidableEq, Repr

/-- Modelled from the spec: the hover test of the interaction engine —
the pointer position is defined and lies inside both the clip rect and
the target rect. Higher-layer occlusion is absent in the single-layer
traces modelled here. -/
def hovered_at (input : GuiInput) (clip_rect rect : Rect) : Bool :=
  match input.mouse_pos with
  | some p => clip_rect.contains p && rect.contains p
  | none => false

/-- Modelled from the spec: Context::interact (context module not under
src/). On a pointer-press edge while hovered with an Id supplied and no
id already active, that Id becomes the active id; active means this
call's Id equals the current active id; on a pointer-release edge
clicked is true iff this call's Id was the active id and the pointer is
still hovering, and the release clears the active id. -/
def interact (mem : Memory) (input : GuiInput) (clip_rect rect : Rect)
    (interaction_id : Option Nat) : InteractInfo × Memory :=
  let hovered := hovered_at input clip_rect rect
  let mem1 : Memory :=
    if input.mouse_pressed && hovered && interaction_id.isSome
        && mem.active_id.isNone then
      { active_id := interaction_id }
    else mem
  let active := interaction_id.isSome && decide (interaction_id = mem1.active_id)
  let clicked := input.mouse_released && hovered && active
  let mem2 : Memory := if input.mouse_released then { active_id := none } else mem1
  (⟨hovered, clicked, active, rect⟩, mem2)

/-- Run one widget (fixed clip rect, target rect and Id) over a trace of
raw input snapshots: each frame the engine diffs the previous snapshot
against the new one and the widget performs one interact call. -/
def run_widget (clip_rect rect : Rect) (id : Nat) :
    List RawInput → RawInput → Memory → List InteractInfo
  | [], _, _ => []
  | raw :: rest, last, mem =>
    let input := GuiInput.from_last_and_new last raw
    let im := interact mem input clip_rect rect (some id)
    im.1 :: run_widget clip_rect rect id rest raw im.2

/-- Modelled from the spec: the clip-formula stated for child regions,
word for word — the intersection of the parent's clip rect expanded by
the fixed margin with the child's own rect. Kept separate so it can be
compared against Region::child_region. -/
def spec_child_clip (parent_clip child_rect : Rect) : Rect :=
  (parent_clip.expand CLIP_RECT_MARGIN).intersect child_rect

/-- A large clip rectangle used by the concrete examples. -/
def clip_all : Rect := ⟨⟨-1000, -1000⟩, ⟨1000, 1000⟩⟩

/-- Fresh vertical Region with available size 400×300, item spacing 4,
cursor at the origin (the scenario of the spec's testable properties). -/
def scenario_region : Region :=
  { id := 0
    clip_rect := clip_all
    desired_rect := ⟨⟨0, 0⟩, ⟨400, 300⟩⟩
    child_bounds := Rect.from_min_size ⟨0, 0⟩ Vec2.zero
    style := ⟨⟨4, 4⟩⟩
    dir := Direction.Vertical
    align := Align.Min
    cursor := ⟨0, 0⟩
    pixels_per_point := 1 }

/-- A 20-unit-tall child used by the scenario. -/
def child_20_tall : Vec2 := ⟨100, 20⟩

/-- Horizontal Region with Max alignment and 100×100 of space, used to
exercise the alignment offset with a small child. -/
def max_align_region : Region :=
  { id := 0
    clip_rect := clip_all
    desired_rect := ⟨⟨0, 0⟩, ⟨100, 100⟩⟩
    child_bounds := Rect.from_min_size ⟨0, 0⟩ Vec2.zero
    style := ⟨⟨0, 0⟩⟩
    dir := Direction.Horizontal
    align := Align.Max
    cursor := ⟨0, 0⟩
    pixels_per_point := 1 }

/-- Parent whose clip rect is strictly smaller than a child rect that
overflows it to the right. -/
def small_clip_region : Region :=
  { max_align_region with clip_rect := ⟨⟨0, 0⟩, ⟨10, 10⟩⟩ }

/-- A child rect wider than small_clip_region's clip rect. -/
def wide_child_rect : Rect := ⟨⟨0, 0⟩, ⟨20, 10⟩⟩

/-- An idle raw snapshot: no button, no pointer position. -/
def raw_idle : RawInput :=
  { mouse_down := false
    mouse_pos := none
    scroll_delta := Vec2.zero
    screen_size := ⟨800, 600⟩
    pixels_per_point := 1
    time := 0
    dropped_files := []
    hovered_files := []
    events := [] }

/-- Raw snapshot reporting the button down but no pointer position. -/
def raw_down_no_pos : RawInput := { raw_idle with mouse_down := true }

/-- The rectangle of the single widget in the interaction traces. -/
def widget_rect : Rect := ⟨⟨0, 0⟩, ⟨10, 10⟩⟩

def point_inside : Pos2 := ⟨5, 5⟩

def point_outside : Pos2 := ⟨50, 50⟩

/-- Trace: press inside the widget rect, drag outside while still down,
release outside. -/
def trace_press_in_release_out : List RawInput :=
  [ { raw_idle with mouse_down := true, mouse_pos := some point_inside }
  , { raw_idle with mouse_down := true, mouse_pos := some point_outside }
  , { raw_idle with mouse_down := false, mouse_pos := some point_outside } ]

/-- Trace: press inside the widget rect, release inside. -/
def trace_press_in_release_in : List RawInput :=
  [ { raw_idle with mouse_down := true, mouse_pos := some point_inside }
  , { raw_idle with mouse_down := false, mouse_pos := some point_inside } ]

theorem Pos2.add_vec_x (p : Pos2) (v : Vec2) : (p + v).x = p.x + v.x := rfl

theorem Pos2.add_vec_y (p : Pos2) (v : Vec2) : (p + v).y = p.y + v.y := rfl

theorem Pos2.sub_pos_x (p q : Pos2) : (p - q).x = p.x - q.x := rfl

theorem Pos2.sub_pos_y (p q : Pos2) : (p - q).y = p.y - q.y := rfl

theorem Pos2.sub_vec_x (p : Pos2) (v : Vec2) : (p - v).x = p.x - v.x := rfl

theorem Pos2.sub_vec_y (p : Pos2) (v : Vec2) : (p - v).y = p.y - v.y := rfl

theorem Vec2.add_x (a b : Vec2) : (a + b).x = a.x + b.x := rfl

theorem Vec2.add_y (a b : Vec2) : (a + b).y = a.y + b.y := rfl

theorem Pos2.mk_add_mk (px py vx vy : ℚ) :
    (⟨px, py⟩ : Pos2) + (⟨vx, vy⟩ : Vec2) = ⟨px + vx, py + vy⟩ := rfl

theorem Pos2.mk_sub_mk (px py qx qy : ℚ) :
    (⟨px, py⟩ : Pos2) - (⟨qx, qy⟩ : Pos2) = (⟨px - qx, py - qy⟩ : Vec2) := rfl

theorem Pos2.mk_sub_vec_mk (px py vx vy : ℚ) :
    (⟨px, py⟩ : Pos2) - (⟨vx, vy⟩ : Vec2) = (⟨px - vx, py - vy⟩ : Pos2) := rfl

theorem Vec2.add_mk_mk (ax ay bx : ℚ) (by' : ℚ) :
    (⟨ax, ay⟩ : Vec2) + (⟨bx, by'⟩ : Vec2) = ⟨ax + bx, ay + by'⟩ := rfl

attribute [simp] Pos2.add_vec_x Pos2.add_vec_y Pos2.sub_pos_x Pos2.sub_pos_y
  Pos2.sub_vec_x Pos2.sub_vec_y Vec2.add_x Vec2.add_y
  Pos2.mk_add_mk Pos2.mk_sub_mk Pos2.mk_sub_vec_mk Vec2.add_mk_mk

theorem den_one_add {a b : ℚ} (ha : a.den = 1) (hb : b.den = 1) :
    (a + b).den = 1 := by
  have ha' := (Rat.den_eq_one_iff a).1 ha
  have hb' := (Rat.den_eq_one_iff b).1 hb
  have h : ((a.num + b.num : ℤ) : ℚ) = a + b := by push_cast [ha', hb']; ring
  rw [← h, Rat.den_intCast]

theorem on_grid_add {ppp a b : ℚ} (ha : on_grid ppp a) (hb : on_grid ppp b) :
    on_grid ppp (a + b) := by
  unfold on_grid at *
  rw [add_mul]
  exact den_one_add ha hb

theorem round_to_pixel_on_grid {ppp q : ℚ} (hppp : ppp ≠ 0)
    (h : on_grid ppp q) : round_to_pixel ppp q = q := by
  unfold on_grid at h
  unfold round_to_pixel
  have h1 : (((q * ppp).num : ℤ) : ℚ) = q * ppp := (Rat.den_eq_one_iff _).1 h
  rw [show round (q * ppp) = (q * ppp).num by rw [← h1]; exact round_intCast _]
  rw [h1]
  exact mul_div_cancel_right₀ q hppp

theorem columns_sum_width_eq (l : List Region) (init : ℚ) :
    columns_sum_width l init = init + (l.map fun c => c.child_bounds.width).sum := by
  unfold columns_sum_width
  induction l generalizing init with
  | nil => simp
  | cons a t ih => simp [List.foldl_cons, ih]; ring

theorem columns_max_height_ub (l : List Region) (init : ℚ) :
    init ≤ l.foldl (fun acc region => Max.max region.bounding_size.y acc) init ∧
    ∀ c ∈ l,
      c.bounding_size.y ≤
        l.foldl (fun acc region => Max.max region.bounding_size.y acc) init := by
  induction l generalizing init with
  | nil => simp
  | cons a t ih =>
    obtain ⟨h1, h2⟩ := ih (Max.max a.bounding_size.y init)
    refine ⟨le_trans (le_max_right _ _) h1, ?_⟩
    intro c hc
    rcases List.mem_cons.1 hc with hc | hc
    · subst hc
      exact le_trans (le_max_left _ _) h1
    · exact h2 c hc

theorem columns_max_height_attained (l : List Region) (init : ℚ) :
    l.foldl (fun acc region => Max.max region.bounding_size.y acc) init = init ∨
    ∃ c ∈ l,
      l.foldl (fun acc region => Max.max region.bounding_size.y acc) init =
        c.bounding_size.y := by
  induction l generalizing init with
  | nil => simp
  | cons a t ih =>
    rcases ih (Max.max a.bounding_size.y init) with h | ⟨c, hc, h⟩
    · rw [List.foldl_cons, h]
      rcases max_choice a.bounding_size.y init with h' | h'
      · exact Or.inr ⟨a, List.mem_cons_self a t, h'⟩
      · exact Or.inl h'
    · exact Or.inr ⟨c, List.mem_cons_of_mem a hc, by rw [List.foldl_cons]; exact h⟩

theorem from_last_and_new_pressed (last new : RawInput) :
    (GuiInput.from_last_and_new last new).mouse_pressed =
      (!last.mouse_down && new.mouse_down) := rfl

theorem from_last_and_new_released (last new : RawInput) :
    (GuiInput.from_last_and_new last new).mouse_released =
      (last.mouse_down && !new.mouse_down) := rfl

theorem reserve_space_impl_fst (r : Region) (c : Vec2) :
    (r.reserve_space_impl c).1 = r.cursor + r.align_offset c := by
  cases hd : r.dir <;> simp [Region.reserve_space_impl, hd]

theorem from_min_size_size (p : Pos2) (v : Vec2) :
    (Rect.from_min_size p v).size = v := by
  cases p with
  | mk px py =>
    cases v with
    | mk vx vy =>
      simp [Rect.from_min_size, Rect.size, Vec2.mk.injEq]

/-- C1: in Region::reserve_space_impl the perpendicular-axis offset added
to the cursor (y for a horizontal region, x for a vertical one) for a
child of size c in the available span a is exactly 0 for Min alignment,
(a − c)/2 for Center and a − c for Max, with no clamping, so for Center
and Max the offset is negative whenever c exceeds a; the position along
the layout axis is the cursor's. -/
theorem alignment_offset_law (r : Region) (c : Vec2) :
    (r.dir = Direction.Horizontal →
      (r.reserve_space_impl c).1.x = r.cursor.x ∧
      (r.align = Align.Min → (r.reserve_space_impl c).1.y - r.cursor.y = 0) ∧
      (r.align = Align.Center →
        (r.reserve_space_impl c).1.y - r.cursor.y = (r.available_height - c.y) / 2) ∧
      (r.align = Align.Max →
        (r.reserve_space_impl c).1.y - r.cursor.y = r.available_height - c.y) ∧
      (r.align ≠ Align.Min → r.available_height < c.y →
        (r.reserve_space_impl c).1.y - r.cursor.y < 0)) ∧
    (r.dir = Direction.Vertical →
      (r.reserve_space_impl c).1.y = r.cursor.y ∧
      (r.align = Align.Min → (r.reserve_space_impl c).1.x - r.cursor.x = 0) ∧
      (r.align = Align.Center →
        (r.reserve_space_impl c).1.x - r.cursor.x = (r.available_width - c.x) / 2) ∧
      (r.align = Align.Max →
        (r.reserve_space_impl c).1.x - r.cursor.x = r.available_width - c.x) ∧
      (r.align ≠ Align.Min → r.available_width < c.x →
        (r.reserve_space_impl c).1.x - r.cursor.x < 0)) := by
  simp only [reserve_space_impl_fst]
  refine ⟨fun hd => ?_, fun hd => ?_⟩ <;>
    cases ha : r.align <;>
      refine ⟨?_, fun h1 => ?_, fun h2 => ?_, fun h3 => ?_, fun h4 h5 => ?_⟩ <;>
        simp_all [Region.align_offset] <;>
          linarith

theorem alignment_offset_law_witness :
    max_align_region.dir = Direction.Horizontal ∧
    (max_align_region.reserve_space_impl ⟨10, 10⟩).1.y - max_align_region.cursor.y =
      max_align_region.available_height - (10 : ℚ) := by
  refine ⟨by decide, ?_⟩
  exact ((alignment_offset_law max_align_region ⟨10, 10⟩).1 (by decide)).2.2.2.1 (by decide)

/-- C5: evaluation at a concrete input showing the bounding-box invariant
broken — a horizontal Max-aligned region with 100×100 available space
reserving a 10×10 child returns the rect (0,90)–(10,100), but
child_bounds is only extended with cursor + child_size, ending as
(0,0)–(10,10), which does not contain the returned rect. -/
theorem aligned_rect_escapes_child_bounds :
    (max_align_region.reserve_space ⟨10, 10⟩).1 =
      ⟨⟨0, 90⟩, ⟨10, 100⟩⟩ ∧
    (max_align_region.reserve_space ⟨10, 10⟩).2.child_bounds =
      ⟨⟨0, 0⟩, ⟨10, 10⟩⟩ ∧
    ¬ ((max_align_region.reserve_space ⟨10, 10⟩).2.child_bounds.contains_rect
      (max_align_region.reserve_space ⟨10, 10⟩).1 = true) := by
  refine ⟨?_, ?_, ?_⟩ <;>
    norm_num [Region.reserve_space, Region.reserve_space_impl, Region.align_offset,
      Region.available_height, Region.available_space, Region.bottom_right,
      round_vec_to_pixels, round_pos_to_pixels, round_to_pixel,
      Rect.from_min_size, Rect.extend_with, Pos2.max, Pos2.min,
      Rect.contains_rect, Rect.contains,
      max_def, min_def, max_align_region, clip_all, Vec2.zero]

/-- C7: Region::reserve_space is total and never rejects or shrinks a
request — the returned rectangle has exactly the requested size rounded
to the pixel grid, is positioned at the (rounded) cursor plus the
alignment offset, and the hit test returns that rectangle unchanged in
its InteractInfo. -/
theorem reserve_space_honors_request (r : Region) (c : Vec2) :
    (r.reserve_space c).1.size = round_vec_to_pixels r.pixels_per_point c ∧
    (r.reserve_space c).1.min =
      (let r0 : Region :=
        { r with cursor := round_pos_to_pixels r.pixels_per_point r.cursor }
       r0.cursor + r0.align_offset (round_vec_to_pixels r.pixels_per_point c)) ∧
    (∀ (mem : Memory) (input : GuiInput) (clip : Rect) (oid : Option Nat),
      (interact mem input clip (r.reserve_space c).1 oid).1.rect =
        (r.reserve_space c).1) := by
  refine ⟨?_, ?_, fun mem input clip oid => rfl⟩
  · exact from_min_size_size _ _
  · show (Rect.from_min_size _ _).min = _
    simp only [Rect.from_min_size]
    exact reserve_space_impl_fst _ _

theorem on_grid_one_of_den {q : ℚ} (h : q.den = 1) : on_grid 1 q := by
  unfold on_grid
  rwa [mul_one]

theorem reserve_space_preserves (r : Region) (v : Vec2) :
    (r.reserve_space v).2.dir = r.dir ∧
    (r.reserve_space v).2.style = r.style ∧
    (r.reserve_space v).2.pixels_per_point = r.pixels_per_point := by
  cases hd : r.dir <;>
    simp [Region.reserve_space, Region.reserve_space_impl, hd]

theorem reserve_space_vertical_cursor (r : Region) (v : Vec2)
    (hd : r.dir = Direction.Vertical) (hp : r.pixels_per_point ≠ 0)
    (hc : on_grid r.pixels_per_point r.cursor.y)
    (hv : on_grid r.pixels_per_point v.y) :
    (r.reserve_space v).2.cursor.y = r.cursor.y + v.y + r.style.item_spacing.y := by
  have h1 := round_to_pixel_on_grid hp hc
  have h2 := round_to_pixel_on_grid hp hv
  simp [Region.reserve_space, Region.reserve_space_impl, hd,
    round_pos_to_pixels, round_vec_to_pixels, h1, h2]

/-- C3: for a vertical Region with item spacing s, pixels_per_point
nonzero and the cursor, the spacing and every reserved height on the
pixel grid, reserving heights h_1..h_n in order advances the cursor
along the layout axis by exactly the sum of the heights plus n times
the spacing (one gap after every child, the last included). -/
theorem vertical_cursor_advance (sizes : List Vec2) (r : Region)
    (hd : r.dir = Direction.Vertical)
    (hp : r.pixels_per_point ≠ 0)
    (hc : on_grid r.pixels_per_point r.cursor.y)
    (hs : on_grid r.pixels_per_point r.style.item_spacing.y)
    (hall : ∀ v ∈ sizes, on_grid r.pixels_per_point v.y) :
    (r.reserve_seq sizes).cursor.y =
      r.cursor.y + (sizes.map Vec2.y).sum +
        (sizes.length : ℚ) * r.style.item_spacing.y := by
  induction sizes generalizing r with
  | nil => simp [Region.reserve_seq]
  | cons v t ih =>
    have hv := hall v (List.mem_cons_self v t)
    have step := reserve_space_vertical_cursor r v hd hp hc hv
    obtain ⟨pdir, pstyle, pppp⟩ := reserve_space_preserves r v
    have hd' : (r.reserve_space v).2.dir = Direction.Vertical := pdir.trans hd
    have hp' : (r.reserve_space v).2.pixels_per_point ≠ 0 := by
      rw [pppp]; exact hp
    have hc' : on_grid (r.reserve_space v).2.pixels_per_point
        (r.reserve_space v).2.cursor.y := by
      rw [pppp, step]
      exact on_grid_add (on_grid_add hc hv) hs
    have hs' : on_grid (r.reserve_space v).2.pixels_per_point
        (r.reserve_space v).2.style.item_spacing.y := by
      rw [pppp, pstyle]; exact hs
    have hall' : ∀ u ∈ t, on_grid (r.reserve_space v).2.pixels_per_point u.y := by
      intro u hu
      rw [pppp]
      exact hall u (List.mem_cons_of_mem v hu)
    have hseq : r.reserve_seq (v :: t) = (r.reserve_space v).2.reserve_seq t := by
      simp [Region.reserve_seq]
    rw [hseq, ih (r.reserve_space v).2 hd' hp' hc' hs' hall', step, pstyle]
    simp only [List.map_cons, List.sum_cons, List.length_cons]
    push_cast
    ring

theorem vertical_cursor_advance_witness :
    (scenario_region.reserve_seq [child_20_tall, child_20_tall]).cursor.y =
      scenario_region.cursor.y +
        ([child_20_tall, child_20_tall].map Vec2.y).sum +
        (([child_20_tall, child_20_tall].length : ℕ) : ℚ) *
          scenario_region.style.item_spacing.y :=
  vertical_cursor_advance [child_20_tall, child_20_tall] scenario_region rfl
    one_ne_zero (on_grid_one_of_den rfl) (on_grid_one_of_den rfl)
    (by
      intro v hv
      simp only [List.mem_cons, List.not_mem_nil, or_false] at hv
      rcases hv with h | h <;> subst h <;> exact on_grid_one_of_den rfl)

/-- C9, counterexample: in the 400×300 vertical scenario with spacing 4
and three 20-tall children, the bounding size height afterwards is not
60 — the two spacing gaps between consecutive children are inside the
child-bounding box, giving 68. -/
theorem scenario_bounding_height_not_60 :
    ¬ ((scenario_region.reserve_seq
        [child_20_tall, child_20_tall, child_20_tall]).bounding_size.y = 60) := by
  norm_num [Region.reserve_seq, Region.reserve_space, Region.reserve_space_impl,
    Region.align_offset, Region.available_height, Region.available_space,
    Region.bottom_right, Region.bounding_size,
    round_vec_to_pixels, round_pos_to_pixels, round_to_pixel,
    Rect.from_min_size, Rect.extend_with, Pos2.max, Pos2.min,
    max_def, min_def, scenario_region, child_20_tall, clip_all, Vec2.zero]

/-- C9, amended: in the 400×300 vertical scenario with spacing 4,
reserving three 20-tall children in sequence puts the cursor's vertical
offset from the start at 0, 24 and 48 immediately before the three
reservations, and the bounding size height afterwards is exactly
68 = 3·20 + 2·4: the gaps between children are counted in the bounding
size and only the gap after the last child is excluded. -/
theorem scenario_cursor_and_bounding :
    scenario_region.cursor.y - scenario_region.desired_rect.min.y = 0 ∧
    (scenario_region.reserve_space child_20_tall).2.cursor.y -
      scenario_region.desired_rect.min.y = 24 ∧
    ((scenario_region.reserve_space child_20_tall).2.reserve_space
      child_20_tall).2.cursor.y - scenario_region.desired_rect.min.y = 48 ∧
    (scenario_region.reserve_seq
      [child_20_tall, child_20_tall, child_20_tall]).bounding_size.y = 68 := by
  refine ⟨?_, ?_, ?_, ?_⟩ <;>
    norm_num [Region.reserve_seq, Region.reserve_space, Region.reserve_space_impl,
      Region.align_offset, Region.available_height, Region.available_space,
      Region.bottom_right, Region.bounding_size,
      round_vec_to_pixels, round_pos_to_pixels, round_to_pixel,
      Rect.from_min_size, Rect.extend_with, Pos2.max, Pos2.min,
      max_def, min_def, scenario_region, child_20_tall, clip_all, Vec2.zero]

/-- C6, counterexample: for a parent clip rect (0,0)–(10,10) and child
rect (0,0)–(20,10), Region::child_region yields the clip rect
(0,0)–(10,10) (margin applied to the child rect), while the claimed
formula — parent clip expanded by the margin, intersected with the
child's own rect — yields (0,0)–(13,10). -/
theorem child_clip_formula_counterexample :
    ¬ ((small_clip_region.child_region wide_child_rect).clip_rect =
        spec_child_clip small_clip_region.clip_rect wide_child_rect) := by
  norm_num [Region.child_region, spec_child_clip, Rect.intersect, Rect.expand,
    Pos2.max, Pos2.min, CLIP_RECT_MARGIN, small_clip_region, max_align_region,
    wide_child_rect, max_def, min_def, clip_all, Vec2.zero, Rect.from_min_size,
    Rect.mk.injEq, Pos2.mk.injEq]

/-- C6, amended: a child Region's clip_rect equals the intersection of
the parent's clip rect with the child's own rect expanded by the fixed
margin (the margin is applied to the child rect, not the parent clip),
and consequently every point of a child's clip rect lies in the
parent's clip rect: clipping only shrinks going down the region tree. -/
theorem child_clip_intersection (parent : Region) (child_rect : Rect) :
    ((parent.child_region child_rect).clip_rect =
      parent.clip_rect.intersect (child_rect.expand CLIP_RECT_MARGIN)) ∧
    (∀ p : Pos2,
      (parent.child_region child_rect).clip_rect.contains p = true →
        parent.clip_rect.contains p = true) := by
  refine ⟨rfl, fun p hp => ?_⟩
  simp only [Region.child_region] at hp
  simp only [Rect.contains, Rect.intersect, Pos2.max, Pos2.min,
    Bool.and_eq_true, decide_eq_true_eq] at hp ⊢
  obtain ⟨⟨⟨h1, h2⟩, h3⟩, h4⟩ := hp
  exact ⟨⟨⟨le_trans (le_max_left _ _) h1, le_trans h2 (min_le_left _ _)⟩,
    le_trans (le_max_left _ _) h3⟩, le_trans h4 (min_le_left _ _)⟩

theorem child_clip_intersection_witness :
    scenario_region.clip_rect.contains ⟨1, 1⟩ = true :=
  (child_clip_intersection scenario_region wide_child_rect).2 ⟨1, 1⟩
    (by
      norm_num [Region.child_region, Rect.intersect, Rect.expand,
        Rect.contains, Pos2.max, Pos2.min, CLIP_RECT_MARGIN,
        scenario_region, wide_child_rect, clip_all, max_def, min_def])

/-- C8, counterexample: with a previous snapshot reporting the button up
and a current snapshot reporting the button down but no pointer
position, the derived input has mouse_down = false yet
mouse_pressed = true — the position coupling does not extend to the
edge-detected mouse-pressed boolean. -/
theorem mouse_pressed_uncoupled :
    (GuiInput.from_last_and_new raw_idle raw_down_no_pos).mouse_down = false ∧
    (GuiInput.from_last_and_new raw_idle raw_down_no_pos).mouse_pressed = true :=
  ⟨rfl, rfl⟩

/-- C8, amended: the position coupling applies to the derived down-state
field only — derived mouse_down is false whenever the current raw
snapshot has no pointer position (indeed it equals raw down AND
position known) — while the edge-detected mouse_pressed and
mouse_released are computed from the raw down-states of the two
snapshots and are not subject to the coupling. -/
theorem derived_down_coupling (last new : RawInput) :
    (new.mouse_pos = none →
      (GuiInput.from_last_and_new last new).mouse_down = false) ∧
    ((GuiInput.from_last_and_new last new).mouse_down =
      (new.mouse_down && new.mouse_pos.isSome)) ∧
    ((GuiInput.from_last_and_new last new).mouse_pressed =
      (!last.mouse_down && new.mouse_down)) ∧
    ((GuiInput.from_last_and_new last new).mouse_released =
      (last.mouse_down && !new.mouse_down)) := by
  refine ⟨fun h => ?_, rfl, rfl, rfl⟩
  simp [GuiInput.from_last_and_new, h]

theorem derived_down_coupling_witness :
    (GuiInput.from_last_and_new raw_idle raw_down_no_pos).mouse_down = false :=
  (derived_down_coupling raw_idle raw_down_no_pos).1 rfl

/-- C2: over derived input, a call's clicked flag is true exactly on a
pointer-release frame in which the call's Id is the active id and the
pointer still hovers the rectangle; the active id can only be acquired
on a press edge while hovered with that Id supplied; every release
clears the active id; and concretely, pressing inside the widget rect,
dragging outside and releasing outside never sets clicked, while
pressing and releasing inside sets clicked on the release frame. -/
theorem click_law :
    (∀ (last new : RawInput) (mem : Memory) (clip_rect rect : Rect) (i : Nat),
      (interact mem (GuiInput.from_last_and_new last new) clip_rect rect
        (some i)).1.clicked =
      ((GuiInput.from_last_and_new last new).mouse_released &&
        hovered_at (GuiInput.from_last_and_new last new) clip_rect rect &&
        decide ((some i : Option Nat) = mem.active_id))) ∧
    (∀ (mem : Memory) (input : GuiInput) (clip_rect rect : Rect)
        (oid : Option Nat),
      input.mouse_released = true →
        (interact mem input clip_rect rect oid).2.active_id = none) ∧
    (∀ (mem : Memory) (input : GuiInput) (clip_rect rect : Rect)
        (oid : Option Nat) (j : Nat),
      mem.active_id = none →
      (interact mem input clip_rect rect oid).2.active_id = some j →
        input.mouse_pressed = true ∧ hovered_at input clip_rect rect = true ∧
          oid = some j) ∧
    ((run_widget clip_all widget_rect 7 trace_press_in_release_out raw_idle
      ⟨none⟩).map (fun info => info.clicked) = [false, false, false]) ∧
    ((run_widget clip_all widget_rect 7 trace_press_in_release_in raw_idle
      ⟨none⟩).map (fun info => info.clicked) = [false, true]) := by
  refine ⟨fun last new mem clip_rect rect i => ?_,
    fun mem input clip_rect rect oid h => ?_,
    fun mem input clip_rect rect oid j h0 h1 => ?_, by decide, by decide⟩
  · simp only [interact, from_last_and_new_pressed, from_last_and_new_released]
    rcases Bool.eq_false_or_eq_true last.mouse_down with hl | hl <;>
      rcases Bool.eq_false_or_eq_true new.mouse_down with hn | hn <;>
        simp [hl, hn]
  · simp [interact, h]
  · by_cases hr : input.mouse_released = true
    · have hclear : (interact mem input clip_rect rect oid).2.active_id = none := by
        simp [interact, hr]
      rw [hclear] at h1
      exact absurd h1 (by simp)
    · simp only [interact] at h1
      simp only [Bool.not_eq_true] at hr
      rw [hr] at h1
      simp only [if_neg (by simp : ¬ (false = true))] at h1
      by_cases hc : (input.mouse_pressed && hovered_at input clip_rect rect &&
          oid.isSome && mem.active_id.isNone) = true
      · rw [if_pos hc] at h1
        simp only [Bool.and_eq_true] at hc
        obtain ⟨⟨⟨hp, hh⟩, hs⟩, hnn⟩ := hc
        exact ⟨hp, hh, h1⟩
      · rw [if_neg hc] at h1
        rw [h0] at h1
        exact absurd h1 (by simp)

theorem click_law_witness :
    (interact ⟨some 7⟩
      (GuiInput.from_last_and_new
        { raw_idle with mouse_down := true, mouse_pos := some point_inside }
        { raw_idle with mouse_pos := some point_inside })
      clip_all widget_rect (some 7)).2.active_id = none :=
  click_law.2.1 ⟨some 7⟩
    (GuiInput.from_last_and_new
      { raw_idle with mouse_down := true, mouse_pos := some point_inside }
      { raw_idle with mouse_pos := some point_inside })
    clip_all widget_rect (some 7) rfl

/-- C4: Region::columns builds n columns whose initial width is each
(W − s·(n−1))/n for available width W and item spacing s, and after the
closure returns it reserves a size whose width is the maximum of W and
s·(n−1) plus the sum of the columns' content widths — so overflowing
content expands the reservation and underflowing content never shrinks
it below W — and whose height is the running maximum of the columns'
content heights (an upper bound of them, equal to one of them or 0). -/
theorem columns_law (r : Region) (n : ℕ) (f : List Region → List Region)
    (hn : 1 ≤ n) :
    ((r.mk_columns n).length = n) ∧
    (∀ c ∈ r.mk_columns n,
      c.desired_rect.width =
        (r.available_width - r.style.item_spacing.x * ((n : ℚ) - 1)) / (n : ℚ)) ∧
    (r.columns n f =
      (r.reserve_space
        ⟨Max.max r.available_width
          (r.style.item_spacing.x * ((n : ℚ) - 1) +
            ((f (r.mk_columns n)).map fun c => c.child_bounds.width).sum),
         columns_max_height (f (r.mk_columns n))⟩).2) ∧
    (r.available_width ≤
      Max.max r.available_width
        (r.style.item_spacing.x * ((n : ℚ) - 1) +
          ((f (r.mk_columns n)).map fun c => c.child_bounds.width).sum)) ∧
    (r.available_width <
        r.style.item_spacing.x * ((n : ℚ) - 1) +
          ((f (r.mk_columns n)).map fun c => c.child_bounds.width).sum →
      Max.max r.available_width
        (r.style.item_spacing.x * ((n : ℚ) - 1) +
          ((f (r.mk_columns n)).map fun c => c.child_bounds.width).sum) =
        r.style.item_spacing.x * ((n : ℚ) - 1) +
          ((f (r.mk_columns n)).map fun c => c.child_bounds.width).sum) ∧
    (r.style.item_spacing.x * ((n : ℚ) - 1) +
        ((f (r.mk_columns n)).map fun c => c.child_bounds.width).sum ≤
        r.available_width →
      Max.max r.available_width
        (r.style.item_spacing.x * ((n : ℚ) - 1) +
          ((f (r.mk_columns n)).map fun c => c.child_bounds.width).sum) =
        r.available_width) ∧
    (∀ c ∈ f (r.mk_columns n),
      c.bounding_size.y ≤ columns_max_height (f (r.mk_columns n))) ∧
    (columns_max_height (f (r.mk_columns n)) = 0 ∨
      ∃ c ∈ f (r.mk_columns n),
        columns_max_height (f (r.mk_columns n)) = c.bounding_size.y) := by
  refine ⟨?_, ?_, ?_, le_max_left _ _, fun h => max_eq_right (le_of_lt h),
    fun h => max_eq_left h, ?_, ?_⟩
  · simp only [Region.mk_columns, List.length_map, List.length_range]
  · intro c hc
    simp only [Region.mk_columns, List.mem_map, List.mem_range] at hc
    obtain ⟨i, hi, rfl⟩ := hc
    simp [Region.child_region, Rect.width, Rect.from_min_max]
  · simp only [Region.columns]
    rw [columns_sum_width_eq]
  · intro c hc
    have h := (columns_max_height_ub (f (r.mk_columns n)) 0).2 c hc
    simpa [columns_max_height] using h
  · rcases columns_max_height_attained (f (r.mk_columns n)) 0 with h | ⟨c, hc, h⟩
    · exact Or.inl (by simpa [columns_max_height] using h)
    · exact Or.inr ⟨c, hc, by simpa [columns_max_height] using h⟩

theorem columns_law_witness :
    (scenario_region.mk_columns 2).length = 2 :=
  (columns_law scenario_region 2 id (by norm_num)).1

/-- C10: Region::add_custom_contents clamps the requested size to the
componentwise minimum with the parent's available space when building
the child region — an oversized request is silently reduced to the
available span on each axis — and after the closure returns, the space
reserved from the parent is the child's bounding size, not the
requested size. -/
theorem add_custom_contents_clamps (r : Region) (size : Vec2)
    (f : Region → Region) :
    ((r.child_region (Rect.from_min_size r.cursor
        (size.min r.available_space))).desired_rect.size =
      size.min r.available_space) ∧
    ((size.min r.available_space).x ≤ size.x ∧
     (size.min r.available_space).y ≤ size.y ∧
     (size.min r.available_space).x ≤ r.available_space.x ∧
     (size.min r.available_space).y ≤ r.available_space.y) ∧
    (r.available_space.x ≤ size.x →
      (size.min r.available_space).x = r.available_space.x) ∧
    (r.available_space.y ≤ size.y →
      (size.min r.available_space).y = r.available_space.y) ∧
    (r.add_custom_contents size f =
      (r.reserve_space
        (f (r.child_region (Rect.from_min_size r.cursor
          (size.min r.available_space)))).bounding_size).2) := by
  refine ⟨from_min_size_size _ _, ?_, ?_, ?_, rfl⟩
  · exact ⟨min_le_left _ _, min_le_left _ _, min_le_right _ _, min_le_right _ _⟩
  · intro h
    exact min_eq_right h
  · intro h
    exact min_eq_right h

theorem add_custom_contents_clamps_witness :
    (Vec2.min ⟨1000, 1000⟩ scenario_region.available_space).x =
      scenario_region.available_space.x :=
  (add_custom_contents_clamps scenario_region ⟨1000, 1000⟩ id).2.2.1
    (by norm_num [Region.available_space, Region.bottom_right, scenario_region,
      Pos2.max, clip_all, max_def, Vec2.zero, Rect.from_min_size])

end Emigui
